import Mathlib

/-!
Shallow embedding of the cointracker-cli application core
(src/app/state.rs, src/main.rs, src/app/ui.rs, src/models/config.rs,
src/models/crypto.rs) used to settle the spec claims.

Modelling conventions:
* Rust `f64` values at rest (configuration amounts, JSON-decoded quote
  fields) are modelled as `ℚ`: JSON cannot encode NaN or infinities, so
  every stored float is finite.  IEEE special values can only arise from
  arithmetic in the render path; that arithmetic is modelled by the `F64`
  type below (exact rational arithmetic for finite operands — rounding and
  overflow are not modelled because no claim depends on them — plus NaN
  and signed infinities with IEEE zero/NaN propagation rules).
* `usize` arithmetic is modelled on `Nat` with explicit checked
  subtraction (`usizeSub`), `none` marking the underflow that panics in a
  debug build and wraps in a release build.
* `HashMap` values are modelled as association lists; only lengths and
  lookups are relevant to the claims.
* File persistence, the HTTP client, logging and the terminal are
  external collaborators; where a code path branches on their outcome the
  outcome is passed in as an explicit parameter.
-/

/-- Rust `str::split_whitespace`: split on whitespace runs, never
producing empty tokens.  Implemented as a fold over the character list so
that it reduces inside the kernel. -/
def splitWhitespace (s : String) : List String :=
  let p := s.data.foldr
    (fun c acc =>
      if c.isWhitespace then
        if acc.2 = ([] : List Char) then (acc.1, ([] : List Char))
        else (String.mk acc.2 :: acc.1, ([] : List Char))
      else (acc.1, c :: acc.2))
    (([] : List String), ([] : List Char))
  if p.2 = ([] : List Char) then p.1 else String.mk p.2 :: p.1

/-- ASCII lower-casing of one character.  Rust's `to_lowercase` is
Unicode-aware; the token names this program deals in are ASCII, where the
two agree. -/
def lowerChar (c : Char) : Char :=
  if 65 ≤ c.toNat ∧ c.toNat ≤ 90 then Char.ofNat (c.toNat + 32) else c

/-- `str::to_lowercase` (ASCII fragment, see `lowerChar`). -/
def strToLower (s : String) : String :=
  String.mk (s.data.map lowerChar)

/-- Numeric value of a digit list (most significant first). -/
def natVal (cs : List Char) : Nat :=
  cs.foldl (fun a c => a * 10 + (c.toNat - 48)) 0

/-- Rust `str::parse::<f64>()` restricted to plain decimal literals
(`[+|-]digits[.digits]`), the only numeric forms the command grammar is
exercised with; scientific notation and the words inf/NaN are rejected
here although Rust would accept them (no claim involves them).  Returns
`none` exactly when Rust's parse would return `Err` on such inputs. -/
def parseF (s : String) : Option ℚ :=
  let signedBody : Bool × List Char :=
    match s.toList with
    | '-' :: r => (true, r)
    | '+' :: r => (false, r)
    | r => (false, r)
  let neg := signedBody.1
  let body := signedBody.2
  let ip := body.takeWhile (fun c => c ≠ '.')
  let rest := body.dropWhile (fun c => c ≠ '.')
  let fp := match rest with
    | [] => []
    | _ :: r => r
  if ip.all Char.isDigit ∧ fp.all Char.isDigit ∧ (ip ≠ [] ∨ fp ≠ []) then
    let q : ℚ :=
      if fp = [] then (natVal ip : ℚ)
      else (natVal ip : ℚ) + (natVal fp : ℚ) / ((10 : ℚ) ^ fp.length)
    some (if neg then -q else q)
  else
    none

/-- `models/config.rs`: `TokenConfig`. -/
structure TokenConfig where
  name : String
  owned : Option ℚ
  avg_buy_price : Option ℚ
  in_watchlist : Bool
  in_portfolio : Bool
deriving DecidableEq

/-- `TokenConfig::is_in_portfolio`. -/
def TokenConfig.is_in_portfolio (t : TokenConfig) : Bool :=
  t.in_portfolio || (t.owned.isSome && decide (0 < t.owned.getD 0))

/-- `TokenConfig::is_in_watchlist`. -/
def TokenConfig.is_in_watchlist (t : TokenConfig) : Bool :=
  t.in_watchlist

/-- `models/config.rs`: `Config`. -/
structure Config where
  api_key : String
  tokens : List TokenConfig
  refresh_interval : Nat
  fear_and_greed_limit : String
deriving DecidableEq

/-- `models/crypto.rs`: `Quote` (all floats finite at rest, see header). -/
structure Quote where
  price : ℚ
  volume_24h : Option ℚ
  volume_change_24h : Option ℚ
  percent_change_1h : Option ℚ
  percent_change_24h : Option ℚ
  percent_change_7d : Option ℚ
  percent_change_30d : Option ℚ
  percent_change_90d : Option ℚ
  market_cap : Option ℚ
deriving DecidableEq

/-- `models/crypto.rs`: `CryptoData`; `quote` is the `HashMap<String, Quote>`
modelled as an association list. -/
structure CryptoData where
  name : String
  symbol : String
  quote : List (String × Quote)
deriving DecidableEq

/-- The `HashMap<String, CryptoData>` held in `App::crypto_data`. -/
abbrev Snapshot := List (String × CryptoData)

/-- `app/state.rs`: `SortColumn`. -/
inductive SortColumn where
  | Symbol
  | Price
  | Change1h
  | Change24h
  | Change7d
  | Change30d
  | Change90d
  | Volume24h
  | VolumeChange
  | MarketCap
  | Holdings
  | AvgBuy
  | CurrentValue
  | CostBasis
  | ProfitLoss
  | ProfitLossPercent
deriving DecidableEq

/-- `app/state.rs`: `InputMode`. -/
inductive InputMode where
  | Normal
  | Editing
deriving DecidableEq

/-- `app/state.rs`: `Command`. -/
inductive Command where
  | add (name : String) (watchlist portfolio : Bool)
      (owned avg_buy_price : Option ℚ)
  | remove (name : String) (watchlist portfolio : Bool)
  | invalid (msg : String)
deriving DecidableEq

/-- `app/state.rs`: the fields of `App` the claims touch.
`selected` models `table_state.selected()`; `fear_greed_data` is omitted
because no claim mentions it. -/
structure AppCore where
  config : Config
  crypto_data : Snapshot
  last_update : Option Nat
  last_error : Option String
  tab_index : Nat
  sort_column : SortColumn
  sort_ascending : Bool
  portfolio_sort_column : SortColumn
  input_mode : InputMode
  input : String
  selected : Option Nat
deriving DecidableEq

/-- Flag loop of `App::parse_command`, `add` branch (state.rs:240-264).
The index loop over `parts[2..]` is rendered as structural recursion; the
Rust guard `i + 2 < parts.len()` is exactly "two more tokens follow the
flag", i.e. the `x :: y :: rest` pattern.  `none` models the
`Command::Invalid("Invalid flag")` early return. -/
def addFlags : List String → Bool → Bool → Option ℚ → Option ℚ →
    Option (Bool × Bool × Option ℚ × Option ℚ)
  | [], w, p, o, a => some (w, p, o, a)
  | [t], w, p, o, a =>
    if t = "-w" then some (true, p, o, a)
    else if t = "-p" then some (w, true, o, a)
    else if t = "-wp" ∨ t = "-pw" then some (true, true, o, a)
    else none
  | [t, x], w, p, o, a =>
    if t = "-w" then addFlags [x] true p o a
    else if t = "-p" then addFlags [x] w true o a
    else if t = "-wp" ∨ t = "-pw" then addFlags [x] true true o a
    else none
  | t :: x :: y :: rest, w, p, o, a =>
    if t = "-w" then addFlags (x :: y :: rest) true p o a
    else if t = "-p" then addFlags rest w true (parseF x) (parseF y)
    else if t = "-wp" ∨ t = "-pw" then addFlags rest true true (parseF x) (parseF y)
    else none

/-- Flag loop of `App::parse_command`, `rm` branch (state.rs:287-297). -/
def rmFlags : List String → Bool → Bool → Option (Bool × Bool)
  | [], w, p => some (w, p)
  | t :: rest, w, p =>
    if t = "-w" then
      rmFlags rest true p
    else if t = "-p" then
      rmFlags rest w true
    else if t = "-wp" ∨ t = "-pw" then
      rmFlags rest true true
    else
      none

/-- `App::parse_command` (state.rs:222-312) on the whitespace-split token
list. -/
def parseParts : List String → Command
  | [] => Command.invalid "Empty command"
  | verb :: rest =>
    if verb = "add" then
      match rest with
      | [] => Command.invalid "Usage: add <name> [-w|-p] [amount] [price]"
      | name :: flags =>
        match addFlags flags false false none none with
        | none => Command.invalid "Invalid flag"
        | some (w, p, o, a) =>
          Command.add name (if !w && !p then true else w) p o a
    else if verb = "rm" then
      match rest with
      | [] => Command.invalid "Usage: rm <name> [-w|-p|-wp]"
      | name :: flags =>
        match rmFlags flags false false with
        | none => Command.invalid "Invalid flag"
        | some (w, p) =>
          if !w && !p then Command.remove name true true
          else Command.remove name w p
    else
      Command.invalid "Unknown command. Available commands: add, rm"

/-- `App::parse_command` on the raw input string. -/
def parse_command (input : String) : Command :=
  parseParts (splitWhitespace input)

/-- Case-insensitive name match used by `process_command`
(`t.name.to_lowercase() == name.to_lowercase()`). -/
def matchesName (name : String) (t : TokenConfig) : Bool :=
  strToLower t.name = strToLower name

/-- `iter_mut().find(...)` followed by a mutation: update the first
element satisfying the predicate, leave the rest unchanged. -/
def updateFirst {α : Type} (pr : α → Bool) (f : α → α) : List α → List α
  | [] => []
  | x :: xs => if pr x then f x :: xs else x :: updateFirst pr f xs

/-- Update of an existing token by `add` (state.rs:151-164): flags are
only ever set to `true`; amounts are overwritten only when the parse
produced `Some`. -/
def updTok (w p : Bool) (o a : Option ℚ) (t : TokenConfig) : TokenConfig :=
  let t1 := if w then { t with in_watchlist := true } else t
  if p then
    { t1 with
        in_portfolio := true
        owned := o.or t1.owned
        avg_buy_price := a.or t1.avg_buy_price }
  else
    t1

/-- Store effect of `Command::Add` (state.rs:145-176): update the first
case-insensitive match in place, or push a new entry. -/
def applyAdd (cfg : Config) (name : String) (w p : Bool)
    (o a : Option ℚ) : Config :=
  if cfg.tokens.any (matchesName name) then
    { cfg with tokens := updateFirst (matchesName name) (updTok w p o a) cfg.tokens }
  else
    { cfg with tokens := cfg.tokens ++ [⟨name, o, a, w, p⟩] }

/-- Store effect of `Command::Remove` (state.rs:188-203): clear the
requested flags on the first match (clearing the portfolio flag also
erases `owned` and `avg_buy_price`), then retain only entries still in
the watchlist or the portfolio. -/
def applyRemove (cfg : Config) (name : String) (w p : Bool) : Config :=
  let toks := updateFirst (matchesName name)
    (fun t =>
      let t1 := if w then { t with in_watchlist := false } else t
      if p then
        { t1 with in_portfolio := false, owned := none, avg_buy_price := none }
      else t1)
    cfg.tokens
  { cfg with tokens := toks.filter (fun t => t.in_watchlist || t.in_portfolio) }

/-- Store-level effect of one parsed command (`App::process_command`
minus I/O; `invalid` performs no mutation). -/
def applyCommandStore (cfg : Config) : Command → Config
  | Command.add n w p o a => applyAdd cfg n w p o a
  | Command.remove n w p => applyRemove cfg n w p
  | Command.invalid _ => cfg

/-- Store after a whole sequence of submitted command strings. -/
def processSeq (cfg : Config) (inputs : List String) : Config :=
  inputs.foldl (fun c inp => applyCommandStore c (parse_command inp)) cfg

/-- `App::process_command` (state.rs:142-220) over the full app state.
`fetchRes` is the outcome of the synchronous `fetch_prices` re-fetch,
`persistOk` the outcome of `fs::write("config.json", ...)`, `now` the
clock.  The returned `Bool` is `true` for `Ok(())`, `false` for the `?`
early return on persistence failure (the in-memory mutation is already
applied at that point and is not rolled back). -/
def process_command (s : AppCore) (fetchRes : Except String Snapshot)
    (persistOk : Bool) (now : Nat) : AppCore × Bool :=
  match parse_command s.input with
  | Command.add n w p o a =>
    let cfg := applyAdd s.config n w p o a
    if persistOk then
      match fetchRes with
      | Except.ok d =>
        ({ s with config := cfg, crypto_data := d, last_update := some now }, true)
      | Except.error _ => ({ s with config := cfg }, true)
    else
      ({ s with config := cfg }, false)
  | Command.remove n w p =>
    let cfg := applyRemove s.config n w p
    if persistOk then
      match fetchRes with
      | Except.ok d =>
        ({ s with config := cfg, crypto_data := d, last_update := some now }, true)
      | Except.error _ => ({ s with config := cfg }, true)
    else
      ({ s with config := cfg }, false)
  | Command.invalid msg => ({ s with last_error := some msg }, true)

/-- The store invariant from the spec: no entry with both membership
flags cleared survives in the store. -/
def storeInv (cfg : Config) : Bool :=
  cfg.tokens.all (fun t => t.in_watchlist || t.in_portfolio)

/-- Checked `usize` subtraction: `none` models the arithmetic fault of
`a - b` with `b > a` (panic in a debug build, wrap-around in release). -/
def usizeSub (a b : Nat) : Option Nat :=
  if b ≤ a then some (a - b) else none

/-- `App::next` (state.rs:110-122) as a function of `crypto_data.len()`
and `table_state.selected()`.  The result is the newly selected index;
`none` marks the underflow of `self.crypto_data.len() - 1`. -/
def appNext (len : Nat) (sel : Option Nat) : Option Nat :=
  match sel with
  | some i => (usizeSub len 1).map (fun m => if m ≤ i then 0 else i + 1)
  | none => some 0

/-- `App::previous` (state.rs:124-136); `none` marks the underflow of
`self.crypto_data.len() - 1`. -/
def appPrevious (len : Nat) (sel : Option Nat) : Option Nat :=
  match sel with
  | some i => if i = 0 then usizeSub len 1 else some (i - 1)
  | none => some 0

/-- `App::next_tab` (state.rs:138-140). -/
def next_tab (tab : Nat) : Nat :=
  (tab + 1) % 3

/-- Foreground application of a drained snapshot (main.rs:86-89):
replaces `crypto_data`, stamps `last_update`, touches nothing else. -/
def applySnapshot (s : AppCore) (d : Snapshot) (now : Nat) : AppCore :=
  { s with crypto_data := d, last_update := some now }

/-- Manual refresh on the `r` key (main.rs:99-104): `if let Ok(new_data)`
— the success branch replaces the snapshot and stamps the time, the
failure branch does nothing at all. -/
def manualRefresh (s : AppCore) (res : Except String Snapshot)
    (now : Nat) : AppCore :=
  match res with
  | Except.ok d => { s with crypto_data := d, last_update := some now }
  | Except.error _ => s

/-- State of the capacity-1 `tokio::sync::mpsc` channel between the
background fetch task and the foreground loop (main.rs:61-89), together
with histories of produced and applied snapshots (snapshots are
identified by `Nat` tags).  `buf` is the single channel slot; `pending`
is a value held by a sender blocked inside `send`. -/
structure ChanState where
  buf : Option Nat
  pending : Option Nat
  produced : List Nat
  applied : List Nat
deriving DecidableEq

/-- Initial channel state. -/
def chanInit : ChanState := ⟨none, none, [], []⟩

/-- Interleaving semantics of the refresh pipeline: the background task
produces a snapshot only when not blocked inside a previous `send`
(`pending = none`); `send` fills the empty slot or blocks; the foreground
`try_recv` takes the slot's value, applies it, and completes a blocked
`send` by moving its value into the slot.  An empty-slot `try_recv` is a
no-op and is left implicit. -/
inductive ChanStep : ChanState → ChanState → Prop
  | produceFree (s : ChanState) (v : Nat)
      (hp : s.pending = none) (hb : s.buf = none) :
      ChanStep s { s with buf := some v, produced := s.produced ++ [v] }
  | produceBlock (s : ChanState) (v w : Nat)
      (hp : s.pending = none) (hb : s.buf = some w) :
      ChanStep s { s with pending := some v, produced := s.produced ++ [v] }
  | drain (s : ChanState) (v : Nat) (hb : s.buf = some v) :
      ChanStep s { s with
        buf := s.pending
        pending := none
        applied := s.applied ++ [v] }

/-- Channel states reachable from the initial state. -/
def chanReach (s : ChanState) : Prop :=
  Relation.ReflTransGen ChanStep chanInit s

/-- IEEE-754 double as needed by the render-path arithmetic: exact
rational arithmetic on finite values (rounding and overflow are not
modelled, see the file header) plus NaN and the two infinities with the
IEEE rules for zero denominators and NaN propagation. -/
inductive F64 where
  | fin (q : ℚ)
  | nan
  | inf
  | neginf
deriving DecidableEq

/-- f64 addition. -/
def fadd : F64 → F64 → F64
  | F64.fin a, F64.fin b => F64.fin (a + b)
  | F64.nan, _ => F64.nan
  | _, F64.nan => F64.nan
  | F64.inf, F64.neginf => F64.nan
  | F64.neginf, F64.inf => F64.nan
  | F64.inf, _ => F64.inf
  | _, F64.inf => F64.inf
  | F64.neginf, _ => F64.neginf
  | _, F64.neginf => F64.neginf

/-- f64 negation. -/
def fneg : F64 → F64
  | F64.fin a => F64.fin (-a)
  | F64.nan => F64.nan
  | F64.inf => F64.neginf
  | F64.neginf => F64.inf

/-- f64 subtraction. -/
def fsub (a b : F64) : F64 :=
  fadd a (fneg b)

/-- f64 multiplication (the sign of zero is not tracked; no claim
depends on it). -/
def fmul : F64 → F64 → F64
  | F64.fin a, F64.fin b => F64.fin (a * b)
  | F64.nan, _ => F64.nan
  | _, F64.nan => F64.nan
  | F64.inf, F64.inf => F64.inf
  | F64.inf, F64.neginf => F64.neginf
  | F64.neginf, F64.inf => F64.neginf
  | F64.neginf, F64.neginf => F64.inf
  | F64.inf, F64.fin b => if b = 0 then F64.nan else if 0 < b then F64.inf else F64.neginf
  | F64.fin a, F64.inf => if a = 0 then F64.nan else if 0 < a then F64.inf else F64.neginf
  | F64.neginf, F64.fin b => if b = 0 then F64.nan else if 0 < b then F64.neginf else F64.inf
  | F64.fin a, F64.neginf => if a = 0 then F64.nan else if 0 < a then F64.neginf else F64.inf

/-- f64 division: `0/0 = NaN`, `x/0 = ±∞` for finite nonzero `x`. -/
def fdiv : F64 → F64 → F64
  | F64.nan, _ => F64.nan
  | _, F64.nan => F64.nan
  | F64.fin a, F64.fin b =>
    if b = 0 then
      if a = 0 then F64.nan else if 0 < a then F64.inf else F64.neginf
    else F64.fin (a / b)
  | F64.fin _, F64.inf => F64.fin 0
  | F64.fin _, F64.neginf => F64.fin 0
  | F64.inf, F64.inf => F64.nan
  | F64.inf, F64.neginf => F64.nan
  | F64.neginf, F64.inf => F64.nan
  | F64.neginf, F64.neginf => F64.nan
  | F64.inf, F64.fin b => if 0 ≤ b then F64.inf else F64.neginf
  | F64.neginf, F64.fin b => if 0 ≤ b then F64.neginf else F64.inf

/-- Rust `>` on f64: false whenever either operand is NaN. -/
def fgt : F64 → F64 → Bool
  | F64.fin a, F64.fin b => decide (b < a)
  | F64.nan, _ => false
  | _, F64.nan => false
  | F64.inf, F64.inf => false
  | F64.inf, _ => true
  | _, F64.inf => false
  | F64.neginf, _ => false
  | F64.fin _, F64.neginf => true

/-- Per-row holdings: `token_config.owned.unwrap_or(0.0)` (ui.rs:432). -/
def rowHoldings (t : TokenConfig) : ℚ :=
  t.owned.getD 0

/-- Per-row average buy price: `unwrap_or(0.0)` (ui.rs:433). -/
def rowAvgBuy (t : TokenConfig) : ℚ :=
  t.avg_buy_price.getD 0

/-- `current_value = holdings * quote.price` (ui.rs:434). -/
def rowCurrentValue (t : TokenConfig) (q : Quote) : F64 :=
  fmul (F64.fin (rowHoldings t)) (F64.fin q.price)

/-- `cost_basis = holdings * avg_buy` (ui.rs:435). -/
def rowCostBasis (t : TokenConfig) : F64 :=
  fmul (F64.fin (rowHoldings t)) (F64.fin (rowAvgBuy t))

/-- `profit_loss = current_value - cost_basis` (ui.rs:436). -/
def rowProfitLoss (t : TokenConfig) (q : Quote) : F64 :=
  fsub (rowCurrentValue t q) (rowCostBasis t)

/-- `profit_loss_pct` with its zero guard (ui.rs:437-441). -/
def rowProfitLossPct (t : TokenConfig) (q : Quote) : F64 :=
  if fgt (rowCostBasis t) (F64.fin 0) then
    fmul (fdiv (rowProfitLoss t q) (rowCostBasis t)) (F64.fin 100)
  else
    F64.fin 0

/-- `total_value`: f64 `.sum()` over the joined rows (ui.rs:590-594). -/
def totalValue (rows : List (TokenConfig × Quote)) : F64 :=
  rows.foldl (fun acc tq => fadd acc (rowCurrentValue tq.1 tq.2)) (F64.fin 0)

/-- The per-row allocation percentage
`(value / total_value) * 100.0` (ui.rs:723) — note: no zero guard in the
source. -/
def rowAllocationPct (t : TokenConfig) (q : Quote) (total : F64) : F64 :=
  fmul (fdiv (rowCurrentValue t q) total) (F64.fin 100)

/-- Three-way comparison on ℚ, the value of `f64::partial_cmp` on finite
operands. -/
def qcmp (x y : ℚ) : Ordering :=
  if x < y then Ordering.lt else if x = y then Ordering.eq else Ordering.gt

/-- `f64::partial_cmp` on values finite at rest (see header). -/
def pcmpQ (x y : ℚ) : Option Ordering :=
  some (qcmp x y)

/-- `Option<f64>::partial_cmp`: `None` sorts below `Some`, two `None`s
are equal. -/
def pcmpOpt : Option ℚ → Option ℚ → Option Ordering
  | none, none => some Ordering.eq
  | none, some _ => some Ordering.lt
  | some _, none => some Ordering.gt
  | some a, some b => pcmpQ a b

/-- `crypto.quote.get("USD").unwrap()`.  The source panics when the key
is missing; every claim only involves rows that carry a USD quote, so the
default quote of this model is never reached there. -/
def usd (c : CryptoData) : Quote :=
  (c.quote.lookup "USD").getD ⟨0, none, none, none, none, none, none, none, none⟩

/-- Column comparison of the watchlist sort (ui.rs:231-246), before the
direction is applied; every `partial_cmp` is `unwrap_or(Equal)`. -/
def watchCmpCol (col : SortColumn) (a b : CryptoData) : Ordering :=
  match col with
  | SortColumn.Symbol => compare a.symbol b.symbol
  | SortColumn.Price => (pcmpQ (usd a).price (usd b).price).getD Ordering.eq
  | SortColumn.Change1h =>
    (pcmpOpt (usd a).percent_change_1h (usd b).percent_change_1h).getD Ordering.eq
  | SortColumn.Change24h =>
    (pcmpOpt (usd a).percent_change_24h (usd b).percent_change_24h).getD Ordering.eq
  | SortColumn.Change7d =>
    (pcmpOpt (usd a).percent_change_7d (usd b).percent_change_7d).getD Ordering.eq
  | SortColumn.Change30d =>
    (pcmpOpt (usd a).percent_change_30d (usd b).percent_change_30d).getD Ordering.eq
  | SortColumn.Change90d =>
    (pcmpOpt (usd a).percent_change_90d (usd b).percent_change_90d).getD Ordering.eq
  | SortColumn.Volume24h =>
    (pcmpOpt (usd a).volume_24h (usd b).volume_24h).getD Ordering.eq
  | SortColumn.VolumeChange =>
    (pcmpOpt (usd a).volume_change_24h (usd b).volume_change_24h).getD Ordering.eq
  | SortColumn.MarketCap =>
    (pcmpOpt (usd a).market_cap (usd b).market_cap).getD Ordering.eq
  | _ => Ordering.eq

/-- Full watchlist comparator (ui.rs:247): the shared ascending flag
reverses the comparison uniformly. -/
def watchCmp (col : SortColumn) (asc : Bool) (a b : CryptoData) : Ordering :=
  if asc then watchCmpCol col a b else (watchCmpCol col a b).swap

/-- Stable insertion into a sorted list: the new element (which precedes
the list elements in the original order) goes before the first element it
does not strictly exceed, matching the stability of Rust's
`slice::sort_by`. -/
def insertBy {α : Type} (cmp : α → α → Ordering) (x : α) : List α → List α
  | [] => [x]
  | y :: ys => if cmp x y = Ordering.gt then y :: insertBy cmp x ys else x :: y :: ys

/-- Stable sort by a comparator, modelling `slice::sort_by`. -/
def sortBy {α : Type} (cmp : α → α → Ordering) : List α → List α
  | [] => []
  | x :: xs => insertBy cmp x (sortBy cmp xs)

/-- The watchlist sort of `draw_watchlist` (ui.rs:231-248). -/
def watchSort (col : SortColumn) (asc : Bool) (rows : List CryptoData) : List CryptoData :=
  sortBy (watchCmp col asc) rows

/-- A quote carrying only a price, every optional field absent. -/
def priceQuote (p : ℚ) : Quote :=
  ⟨p, none, none, none, none, none, none, none, none⟩

/-- A provider row with a USD quote. -/
def mkCrypto (nm sym : String) (p : ℚ) : CryptoData :=
  ⟨nm, sym, [("USD", priceQuote p)]⟩

/-- Concrete configuration used by witnesses. -/
def sampleConfig : Config :=
  ⟨"key", [⟨"bitcoin", some 2, some 100, true, true⟩], 60, "10"⟩

/-- Concrete one-row snapshot. -/
def sampleSnapshot1 : Snapshot :=
  [("1", mkCrypto "Bitcoin" "BTC" 50000)]

/-- Concrete two-row snapshot. -/
def sampleSnapshot2 : Snapshot :=
  [("1", mkCrypto "Bitcoin" "BTC" 50000), ("1027", mkCrypto "Ethereum" "ETH" 3000)]

/-- Concrete app state used by witnesses and counterexamples. -/
def sampleApp : AppCore :=
  { config := sampleConfig
    crypto_data := sampleSnapshot1
    last_update := some 1
    last_error := none
    tab_index := 0
    sort_column := SortColumn.MarketCap
    sort_ascending := false
    portfolio_sort_column := SortColumn.CurrentValue
    input_mode := InputMode.Normal
    input := ""
    selected := some 0 }

/-- `sampleApp` in edit mode with an invalid-flag command typed in. -/
def appEdit : AppCore :=
  { sampleApp with input := "add X -z", input_mode := InputMode.Editing }

/-- `sampleApp` with a selection beyond any row count used later. -/
def appSel5 : AppCore :=
  { sampleApp with selected := some 5 }

/-- A portfolio entry whose holdings are zero: its row value is `0`, so a
portfolio holding only it has `total_value = 0`. -/
def zeroToken : TokenConfig :=
  ⟨"bitcoin", some 0, some 0, false, true⟩

/-- Quote paired with `zeroToken` in the allocation counterexample. -/
def zeroQuote : Quote :=
  priceQuote 100

/-- Claim C3 (divergence): with an empty row set and an existing
selection, `App::next` and `App::previous` hit the underflow of
`crypto_data.len() - 1` (modelled as `none`) instead of the specified
no-op selecting row 0; with no prior selection they do select row 0, and
with nonempty data they wrap around as specified. -/
theorem spec_C3_underflow :
    appNext 0 (some 0) = none ∧
    appPrevious 0 (some 0) = none ∧
    appNext 0 none = some 0 ∧
    appPrevious 0 none = some 0 ∧
    appNext 3 (some 2) = some 0 ∧
    appNext 3 (some 0) = some 1 ∧
    appPrevious 3 (some 0) = some 2 ∧
    appPrevious 3 (some 2) = some 1 := by
  decide

/-- Claim C4 (counterexample): a failing manual refresh does NOT record
the failure in the last-error field — starting from a state whose
last-error is empty, it is still empty afterwards (the claim requires it
to be set); the snapshot is indeed left unchanged. -/
theorem spec_C4_counterexample :
    (manualRefresh sampleApp (Except.error "network error") 7).last_error = none ∧
    (manualRefresh sampleApp (Except.error "network error") 7).crypto_data =
      sampleApp.crypto_data := by
  constructor
  · rfl
  · rfl

/-- Claim C4 (amended): on failure a manual refresh leaves the whole
state — MarketSnapshot AND last-error — unchanged (the failure is simply
dropped); on success it replaces the snapshot and stamps the refresh
time. -/
theorem spec_C4_amended :
    (∀ (s : AppCore) (e : String) (now : Nat),
      manualRefresh s (Except.error e) now = s) ∧
    (∀ (s : AppCore) (d : Snapshot) (now : Nat),
      manualRefresh s (Except.ok d) now =
        { s with crypto_data := d, last_update := some now }) := by
  exact ⟨fun _ _ _ => rfl, fun _ _ _ => rfl⟩

/-- Claim C5 (counterexample): applying a snapshot that shrinks the row
count to 2 leaves a selection of 5 in place — the selection index is not
clamped into `[0, rowCount)` on a data change. -/
theorem spec_C5_counterexample :
    (applySnapshot appSel5 sampleSnapshot2 3).selected = some 5 ∧
    (applySnapshot appSel5 sampleSnapshot2 3).crypto_data.length = 2 ∧
    ¬ (5 < 2) := by
  refine ⟨rfl, rfl, by decide⟩

/-- Claim C5 (amended): no data change clamps the selection — both the
foreground snapshot application and the manual refresh leave the
selection index exactly as it was, so after a shrinking refresh it can
lie outside `[0, rowCount)` until the next navigation key. -/
theorem spec_C5_amended :
    (∀ (s : AppCore) (d : Snapshot) (now : Nat),
      (applySnapshot s d now).selected = s.selected) ∧
    (∀ (s : AppCore) (r : Except String Snapshot) (now : Nat),
      (manualRefresh s r now).selected = s.selected) := by
  refine ⟨fun _ _ _ => rfl, fun s r now => ?_⟩
  cases r <;> rfl

/-- Claim C6: any input the Command Processor classifies as invalid —
in particular the unrecognized-flag example `add X -z` — only sets the
last-error field and leaves every other field, the Config Store
included, exactly as it was. -/
theorem spec_C6_invalid_flag :
    parse_command "add X -z" = Command.invalid "Invalid flag" ∧
    ∀ (s : AppCore) (fr : Except String Snapshot) (pk : Bool) (now : Nat)
      (msg : String),
      parse_command s.input = Command.invalid msg →
      process_command s fr pk now = ({ s with last_error := some msg }, true) := by
  constructor
  · decide
  · intro s fr pk now msg h
    unfold process_command
    rw [h]

/-- Witness for C6: submitting `add X -z` from a concrete state mutates
only the last-error field. -/
theorem spec_C6_witness :
    process_command appEdit (Except.error "net down") true 2 =
      ({ appEdit with last_error := some "Invalid flag" }, true) :=
  spec_C6_invalid_flag.2 appEdit (Except.error "net down") true 2
    "Invalid flag" (by decide)

/-- Claim C7: `add <name> -p` (and `-wp`) with the two numeric tokens
missing is accepted: the parse yields the portfolio flag with both
amounts unset; with the two tokens present, each amount is set exactly
when its token parses as a float at that position; applying the
amount-less command creates the entry with `inPortfolio` and unset
amounts, or updates an existing entry in place leaving its stored
amounts untouched. -/
theorem spec_C7_p_without_amounts :
    (∀ name : String,
      parseParts ["add", name, "-p"] = Command.add name false true none none) ∧
    (∀ name : String,
      parseParts ["add", name, "-wp"] = Command.add name true true none none) ∧
    (∀ name x y : String,
      parseParts ["add", name, "-p", x, y] =
        Command.add name false true (parseF x) (parseF y)) ∧
    parse_command "add X -p 3 150" =
      Command.add "X" false true (some 3) (some 150) ∧
    (∀ t : TokenConfig,
      updTok false true none none t = { t with in_portfolio := true }) ∧
    (∀ (cfg : Config) (name : String),
      cfg.tokens.any (matchesName name) = false →
      (applyAdd cfg name false true none none).tokens =
        cfg.tokens ++ [⟨name, none, none, false, true⟩]) := by
  refine ⟨fun name => rfl, fun name => rfl, fun name x y => rfl, by decide,
    fun t => rfl, fun cfg name h => ?_⟩
  simp [applyAdd, h]

/-- Witness for C7: applying `add eth -p` to a store without `eth`
appends the flagged, amount-less entry. -/
theorem spec_C7_witness :
    (applyAdd sampleConfig "eth" false true none none).tokens =
      sampleConfig.tokens ++ [⟨"eth", none, none, false, true⟩] :=
  spec_C7_p_without_amounts.2.2.2.2.2 sampleConfig "eth" (by decide)

/-- Claim C9 (counterexample): for a portfolio whose only row has zero
holdings, `total_value` is 0 and the per-row allocation percentage
`(value / total_value) * 100.0` (ui.rs:723) evaluates to NaN — a
non-finite value, not the 0 the claim requires of every dividing
render-path computation. -/
theorem spec_C9_counterexample :
    totalValue [(zeroToken, zeroQuote)] = F64.fin 0 ∧
    rowAllocationPct zeroToken zeroQuote (totalValue [(zeroToken, zeroQuote)]) =
      F64.nan ∧
    F64.nan ≠ F64.fin 0 := by
  have ht : totalValue [(zeroToken, zeroQuote)] = F64.fin 0 := by
    simp [totalValue, rowCurrentValue, rowHoldings, zeroToken, zeroQuote,
      priceQuote, fmul, fadd]
  refine ⟨ht, ?_, by decide⟩
  rw [ht]
  simp [rowAllocationPct, rowCurrentValue, rowHoldings, zeroToken, zeroQuote,
    priceQuote, fmul, fdiv]

/-- Claim C9 (amended): `profitLossPercent` is guarded — it returns 0
whenever `costBasis` is not positive, in particular when it is 0 — but
the per-row allocation percentage has no guard and yields NaN on the
zero-total portfolio. -/
theorem spec_C9_amended :
    (∀ (t : TokenConfig) (q : Quote),
      rowCostBasis t = F64.fin 0 → rowProfitLossPct t q = F64.fin 0) ∧
    rowAllocationPct zeroToken zeroQuote (totalValue [(zeroToken, zeroQuote)]) =
      F64.nan := by
  constructor
  · intro t q h
    unfold rowProfitLossPct
    rw [h]
    simp [fgt]
  · have ht : totalValue [(zeroToken, zeroQuote)] = F64.fin 0 := by
      simp [totalValue, rowCurrentValue, rowHoldings, zeroToken, zeroQuote,
        priceQuote, fmul, fadd]
    rw [ht]
    simp [rowAllocationPct, rowCurrentValue, rowHoldings, zeroToken, zeroQuote,
      priceQuote, fmul, fdiv]

/-- Witness for C9: the zero-cost-basis row renders a 0 P/L percentage. -/
theorem spec_C9_witness :
    rowProfitLossPct zeroToken zeroQuote = F64.fin 0 :=
  spec_C9_amended.1 zeroToken zeroQuote
    (by simp [rowCostBasis, rowHoldings, rowAvgBuy, zeroToken, fmul])

/-- Every member of `updateFirst pr f l` is either an untouched member of
`l` or the image under `f` of a member of `l`. -/
theorem mem_updateFirst {α : Type} (pr : α → Bool) (f : α → α) (l : List α)
    (u : α) (hu : u ∈ updateFirst pr f l) :
    u ∈ l ∨ ∃ t, t ∈ l ∧ u = f t := by
  induction l with
  | nil => simp [updateFirst] at hu
  | cons x xs ih =>
    by_cases hx : pr x = true
    · simp only [updateFirst, if_pos hx] at hu
      rcases List.mem_cons.mp hu with h | h
      · exact Or.inr ⟨x, List.mem_cons_self x xs, h⟩
      · exact Or.inl (List.mem_cons_of_mem x h)
    · simp only [updateFirst, if_neg hx] at hu
      rcases List.mem_cons.mp hu with h | h
      · exact Or.inl (h ▸ List.mem_cons_self x xs)
      · rcases ih h with h2 | ⟨t, ht, hft⟩
        · exact Or.inl (List.mem_cons_of_mem x h2)
        · exact Or.inr ⟨t, List.mem_cons_of_mem x ht, hft⟩

/-- `updTok` never clears a membership flag. -/
theorem updTok_flags (w p : Bool) (o a : Option ℚ) (t : TokenConfig)
    (h : (t.in_watchlist || t.in_portfolio) = true) :
    ((updTok w p o a t).in_watchlist || (updTok w p o a t).in_portfolio) = true := by
  unfold updTok
  cases w <;> cases p <;> simp_all

/-- `add` preserves the store invariant as long as the command carries at
least one membership flag (which the parser guarantees). -/
theorem storeInv_applyAdd (cfg : Config) (n : String) (w p : Bool)
    (o a : Option ℚ) (hwp : (w || p) = true) (h : storeInv cfg = true) :
    storeInv (applyAdd cfg n w p o a) = true := by
  unfold applyAdd
  by_cases hm : cfg.tokens.any (matchesName n) = true
  · rw [if_pos hm]
    simp only [storeInv, List.all_eq_true] at h ⊢
    intro t ht
    rcases mem_updateFirst _ _ _ _ ht with h1 | ⟨t0, ht0, hft⟩
    · exact h t h1
    · exact hft ▸ updTok_flags w p o a t0 (h t0 ht0)
  · rw [if_neg hm]
    simp only [storeInv, List.all_eq_true] at h ⊢
    intro t ht
    rcases List.mem_append.mp ht with h1 | h1
    · exact h t h1
    · have : t = (⟨n, o, a, w, p⟩ : TokenConfig) := List.mem_singleton.mp h1
      subst this
      simpa using hwp

/-- `rm` re-establishes the store invariant unconditionally: the final
`retain` keeps exactly the entries with a flag still set. -/
theorem storeInv_applyRemove (cfg : Config) (n : String) (w p : Bool) :
    storeInv (applyRemove cfg n w p) = true := by
  simp only [applyRemove, storeInv, List.all_eq_true]
  intro t ht
  exact (List.mem_filter.mp ht).2

/-- The parser never emits an `add` with both membership flags cleared:
flagless `add` defaults to the watchlist. -/
theorem parseParts_add_flagged (parts : List String) (n : String) (w p : Bool)
    (o a : Option ℚ) (h : parseParts parts = Command.add n w p o a) :
    (w || p) = true := by
  rcases parts with _ | ⟨verb, rest⟩
  · simp [parseParts] at h
  · by_cases hv : verb = "add"
    · subst hv
      rcases rest with _ | ⟨name, flags⟩
      · simp [parseParts] at h
      · simp only [parseParts] at h
        rcases hf : addFlags flags false false none none with _ | ⟨w0, p0, o0, a0⟩
        · rw [hf] at h
          simp at h
        · rw [hf] at h
          cases h
          cases w0 <;> cases p <;> simp
    · by_cases hr : verb = "rm"
      · subst hr
        rcases rest with _ | ⟨name, flags⟩
        · simp [parseParts, hv] at h
        · simp only [parseParts] at h
          rcases hf : rmFlags flags false false with _ | ⟨w0, p0⟩
          · rw [hf] at h
            simp [hv] at h
          · rw [hf] at h
            by_cases hb : (!w0 && !p0) = true <;> simp [hv, hb] at h
      · simp [parseParts, hv, hr] at h

/-- Claim C1: starting from a store in which every entry has a membership
flag set, any sequence of submitted `add`/`rm` command strings leaves the
store free of entries with both flags cleared. -/
theorem spec_C1_no_zombie_entries (cfg : Config) (inputs : List String)
    (h : storeInv cfg = true) : storeInv (processSeq cfg inputs) = true := by
  induction inputs generalizing cfg with
  | nil => simpa [processSeq] using h
  | cons i is ih =>
    have hstep : processSeq cfg (i :: is) =
        processSeq (applyCommandStore cfg (parse_command i)) is := rfl
    rw [hstep]
    apply ih
    cases hc : parse_command i with
    | add n w p o a =>
      exact storeInv_applyAdd cfg n w p o a
        (parseParts_add_flagged (splitWhitespace i) n w p o a hc) h
    | remove n w p =>
      exact storeInv_applyRemove cfg n w p
    | invalid m =>
      simpa [applyCommandStore] using h

/-- Witness for C1: a concrete flagged store stays free of zombie
entries across a concrete command sequence. -/
theorem spec_C1_witness :
    storeInv sampleConfig = true ∧
    storeInv (processSeq sampleConfig ["add eth -p", "rm bitcoin -w", "rm eth"]) = true :=
  ⟨by decide,
    spec_C1_no_zombie_entries sampleConfig ["add eth -p", "rm bitcoin -w", "rm eth"]
      (by decide)⟩

/-- When at most one element of `l` satisfies `pr`, any member of
`updateFirst pr f l` still satisfying `pr` must be the `f`-image of a
matching element of `l`. -/
theorem updateFirst_match_mem {α : Type} (pr : α → Bool) (f : α → α) :
    ∀ (l : List α) (u : α), l.countP pr ≤ 1 → u ∈ updateFirst pr f l →
      pr u = true → ∃ t, t ∈ l ∧ pr t = true ∧ u = f t := by
  intro l
  induction l with
  | nil =>
    intro u hc hu hp
    simp [updateFirst] at hu
  | cons x xs ih =>
    intro u hc hu hp
    by_cases hx : pr x = true
    · simp only [updateFirst, if_pos hx] at hu
      rcases List.mem_cons.mp hu with h | hmem
      · exact ⟨x, List.mem_cons_self x xs, hx, h⟩
      · exfalso
        have h0 : xs.countP pr = 0 := by
          rw [List.countP_cons_of_pos _ _ hx] at hc
          omega
        have hnone := List.countP_eq_zero.mp h0 u hmem
        simp [hp] at hnone
    · simp only [updateFirst, if_neg hx] at hu
      rcases List.mem_cons.mp hu with h | hmem
      · exact absurd (h ▸ hp) hx
      · have hc2 : xs.countP pr ≤ 1 := by
          rw [List.countP_cons_of_neg _ _ hx] at hc
          exact hc
        rcases ih u hc2 hmem hp with ⟨t, ht, hpt, hft⟩
        exact ⟨t, List.mem_cons_of_mem x ht, hpt, hft⟩

/-- Claim C10: `rm <name>` with the portfolio flag set (explicitly via
`-p`/`-wp`, or implicitly because flagless `rm` defaults to both flags)
clears the matched entry's portfolio flag AND erases its stored
`ownedAmount`/`avgBuyPrice` — even when the entry survives in the
watchlist.  The quantified part says this of every surviving entry that
matches the name case-insensitively (in a store without duplicate
names). -/
theorem spec_C10_rm_clears_holdings :
    parseParts ["rm", "btc"] = Command.remove "btc" true true ∧
    parseParts ["rm", "btc", "-p"] = Command.remove "btc" false true ∧
    parseParts ["rm", "btc", "-wp"] = Command.remove "btc" true true ∧
    ∀ (cfg : Config) (name : String) (w : Bool) (u : TokenConfig),
      cfg.tokens.countP (matchesName name) ≤ 1 →
      u ∈ (applyRemove cfg name w true).tokens →
      matchesName name u = true →
      u.in_portfolio = false ∧ u.owned = none ∧ u.avg_buy_price = none := by
  refine ⟨rfl, rfl, rfl, ?_⟩
  intro cfg name w u hcount hu hmatch
  simp only [applyRemove] at hu
  have hu2 := (List.mem_filter.mp hu).1
  rcases updateFirst_match_mem (matchesName name) _ cfg.tokens u hcount hu2 hmatch
    with ⟨t, -, -, hft⟩
  subst hft
  cases w <;> simp

/-- Witness for C10: `rm BitCoin -p` on the sample store (which holds a
portfolio entry named `bitcoin` with amounts recorded) leaves the entry
in the watchlist with its portfolio flag cleared and both amounts
erased. -/
theorem spec_C10_witness :
    (⟨"bitcoin", none, none, true, false⟩ : TokenConfig).in_portfolio = false ∧
    (⟨"bitcoin", none, none, true, false⟩ : TokenConfig).owned = none ∧
    (⟨"bitcoin", none, none, true, false⟩ : TokenConfig).avg_buy_price = none :=
  spec_C10_rm_clears_holdings.2.2.2 sampleConfig "BitCoin" false
    ⟨"bitcoin", none, none, true, false⟩ (by decide) (by decide) (by decide)

/-- FIFO invariant of the refresh channel: the produced history is
exactly the applied history followed by the in-flight values (slot, then
blocked sender), and an empty slot means no sender is blocked. -/
theorem chan_invariant (s : ChanState) (h : chanReach s) :
    s.produced = s.applied ++ s.buf.toList ++ s.pending.toList ∧
    (s.buf = none → s.pending = none) := by
  induction h with
  | refl => simp [chanInit]
  | tail hab hbc ih =>
    rcases ih with ⟨ih1, ih2⟩
    cases hbc with
    | produceFree v hp hb =>
      constructor
      · simp [ih1, hb, hp]
      · intro hh
        simp at hh
    | produceBlock v w hp hb =>
      constructor
      · simp [ih1, hb, hp]
      · intro hh
        simp [hb] at hh
    | drain v hb =>
      constructor
      · simp [ih1, hb]
      · intro hh
        rfl

/-- Claim C2 (amended): the capacity-1 blocking channel delivers
snapshots FIFO, losing and reordering nothing — the produced history is
always the applied history plus at most two in-flight snapshots (so at
most two can be produced before any drain, not arbitrary N); once the
foreground has drained everything it has applied every snapshot in
production order, ending with the most recent; and every drain unblocks
the sender, so an empty slot never leaves the background blocked. -/
theorem spec_C2_fifo_handoff (s : ChanState) (h : chanReach s) :
    s.produced = s.applied ++ s.buf.toList ++ s.pending.toList ∧
    (s.buf = none → s.pending = none) ∧
    (s.applied = [] → s.produced.length ≤ 2) ∧
    (s.buf = none → s.applied = s.produced) := by
  have hinv := chan_invariant s h
  refine ⟨hinv.1, hinv.2, ?_, ?_⟩
  · intro ha
    rw [hinv.1, ha]
    cases hb : s.buf <;> cases hpn : s.pending <;> simp
  · intro hb
    have hp := hinv.2 hb
    rw [hinv.1, hb, hp]
    simp

/-- Witness for C2: the initial state is reachable and satisfies the
hand-off contract. -/
theorem spec_C2_witness :
    chanInit.produced =
      chanInit.applied ++ chanInit.buf.toList ++ chanInit.pending.toList ∧
    (chanInit.buf = none → chanInit.pending = none) ∧
    (chanInit.applied = [] → chanInit.produced.length ≤ 2) ∧
    (chanInit.buf = none → chanInit.applied = chanInit.produced) :=
  spec_C2_fifo_handoff chanInit Relation.ReflTransGen.refl

/-- Claim C2 (counterexample): the background can produce snapshot 1 and
snapshot 2 (the second blocking in `send`) before the foreground drains
anything; the first drain then applies snapshot 1 — an OLDER snapshot
than the already-produced snapshot 2 — refuting "the foreground applies
only the most recent snapshot, never an older one". -/
theorem spec_C2_counterexample :
    chanReach ⟨some 2, none, [1, 2], [1]⟩ ∧
    (ChanState.mk (some 2) none [1, 2] [1]).applied = [1] ∧
    (ChanState.mk (some 2) none [1, 2] [1]).produced.getLast? = some 2 ∧
    (1 : Nat) ≠ 2 := by
  refine ⟨?_, rfl, rfl, by decide⟩
  have s1 : ChanStep chanInit ⟨some 1, none, [1], []⟩ :=
    ChanStep.produceFree chanInit 1 rfl rfl
  have s2 : ChanStep ⟨some 1, none, [1], []⟩ ⟨some 1, some 2, [1, 2], []⟩ :=
    ChanStep.produceBlock ⟨some 1, none, [1], []⟩ 2 1 rfl rfl
  have s3 : ChanStep ⟨some 1, some 2, [1, 2], []⟩ ⟨some 2, none, [1, 2], [1]⟩ :=
    ChanStep.drain ⟨some 1, some 2, [1, 2], []⟩ 1 rfl
  exact Relation.ReflTransGen.tail
    (Relation.ReflTransGen.tail (Relation.ReflTransGen.single s1) s2) s3

/-- `qcmp` on a strictly smaller first argument. -/
theorem qcmp_lt {x y : ℚ} (h : x < y) : qcmp x y = Ordering.lt := by
  simp [qcmp, h]

/-- `qcmp` on a strictly larger first argument. -/
theorem qcmp_gt {x y : ℚ} (h : y < x) : qcmp x y = Ordering.gt := by
  simp [qcmp, lt_asymm h, ne_of_gt h]

/-- The four price-comparator values produced by one strict price
inequality, in both sort directions. -/
theorem watchCmp_price_facts {a b : CryptoData} {qa qb : ℚ}
    (hpa : (usd a).price = qa) (hpb : (usd b).price = qb) (h : qa < qb) :
    watchCmp SortColumn.Price true a b = Ordering.lt ∧
    watchCmp SortColumn.Price false a b = Ordering.gt ∧
    watchCmp SortColumn.Price true b a = Ordering.gt ∧
    watchCmp SortColumn.Price false b a = Ordering.lt := by
  refine ⟨?_, ?_, ?_, ?_⟩ <;>
    simp [watchCmp, watchCmpCol, pcmpQ, hpa, hpb, qcmp_lt h, qcmp_gt h,
      Ordering.swap]

/-- Claim C8: for three rows with pairwise-distinct (present) prices the
ascending price sort lists them in increasing price order; flipping the
shared direction flag yields exactly the reversed list; and on a column
whose field both rows lack, the comparator returns `eq` in either
direction. -/
theorem spec_C8_sort_order (a b c : CryptoData) (qa qb qc : ℚ)
    (hpa : (usd a).price = qa) (hpb : (usd b).price = qb)
    (hpc : (usd c).price = qc)
    (hab : qa ≠ qb) (hac : qa ≠ qc) (hbc : qb ≠ qc) :
    List.Chain' (fun x y : CryptoData => (usd x).price < (usd y).price)
      (watchSort SortColumn.Price true [a, b, c]) ∧
    watchSort SortColumn.Price false [a, b, c] =
      (watchSort SortColumn.Price true [a, b, c]).reverse ∧
    (∀ (x y : CryptoData) (dir : Bool),
      (usd x).percent_change_24h = none → (usd y).percent_change_24h = none →
      watchCmp SortColumn.Change24h dir x y = Ordering.eq) := by
  have part3 : ∀ (x y : CryptoData) (dir : Bool),
      (usd x).percent_change_24h = none → (usd y).percent_change_24h = none →
      watchCmp SortColumn.Change24h dir x y = Ordering.eq := by
    intro x y dir hx hy
    cases dir <;> simp [watchCmp, watchCmpCol, pcmpOpt, hx, hy, Ordering.swap]
  have hmain : List.Chain' (fun x y : CryptoData => (usd x).price < (usd y).price)
      (watchSort SortColumn.Price true [a, b, c]) ∧
      watchSort SortColumn.Price false [a, b, c] =
        (watchSort SortColumn.Price true [a, b, c]).reverse := by
    rcases lt_trichotomy qa qb with h1 | h1 | h1
    · rcases lt_trichotomy qb qc with h2 | h2 | h2
      · obtain ⟨f1, f2, f3, f4⟩ := watchCmp_price_facts hpa hpb h1
        obtain ⟨g1, g2, g3, g4⟩ := watchCmp_price_facts hpb hpc h2
        obtain ⟨k1, k2, k3, k4⟩ := watchCmp_price_facts hpa hpc (h1.trans h2)
        constructor <;>
          simp [watchSort, sortBy, insertBy, f1, f2, f3, f4, g1, g2, g3, g4,
            k1, k2, k3, k4, List.chain'_cons, hpa, hpb, hpc, h1, h2]
      · exact absurd h2 hbc
      · rcases lt_trichotomy qa qc with h3 | h3 | h3
        · obtain ⟨f1, f2, f3, f4⟩ := watchCmp_price_facts hpa hpc h3
          obtain ⟨g1, g2, g3, g4⟩ := watchCmp_price_facts hpc hpb h2
          obtain ⟨k1, k2, k3, k4⟩ := watchCmp_price_facts hpa hpb h1
          constructor <;>
            simp [watchSort, sortBy, insertBy, f1, f2, f3, f4, g1, g2, g3, g4,
              k1, k2, k3, k4, List.chain'_cons, hpa, hpb, hpc, h2, h3]
        · exact absurd h3 hac
        · obtain ⟨f1, f2, f3, f4⟩ := watchCmp_price_facts hpc hpa h3
          obtain ⟨g1, g2, g3, g4⟩ := watchCmp_price_facts hpa hpb h1
          obtain ⟨k1, k2, k3, k4⟩ := watchCmp_price_facts hpc hpb h2
          constructor <;>
            simp [watchSort, sortBy, insertBy, f1, f2, f3, f4, g1, g2, g3, g4,
              k1, k2, k3, k4, List.chain'_cons, hpa, hpb, hpc, h1, h3]
    · exact absurd h1 hab
    · rcases lt_trichotomy qb qc with h2 | h2 | h2
      · rcases lt_trichotomy qa qc with h3 | h3 | h3
        · obtain ⟨f1, f2, f3, f4⟩ := watchCmp_price_facts hpb hpa h1
          obtain ⟨g1, g2, g3, g4⟩ := watchCmp_price_facts hpa hpc h3
          obtain ⟨k1, k2, k3, k4⟩ := watchCmp_price_facts hpb hpc h2
          constructor <;>
            simp [watchSort, sortBy, insertBy, f1, f2, f3, f4, g1, g2, g3, g4,
              k1, k2, k3, k4, List.chain'_cons, hpa, hpb, hpc, h1, h3]
        · exact absurd h3 hac
        · obtain ⟨f1, f2, f3, f4⟩ := watchCmp_price_facts hpb hpc h2
          obtain ⟨g1, g2, g3, g4⟩ := watchCmp_price_facts hpc hpa h3
          obtain ⟨k1, k2, k3, k4⟩ := watchCmp_price_facts hpb hpa h1
          constructor <;>
            simp [watchSort, sortBy, insertBy, f1, f2, f3, f4, g1, g2, g3, g4,
              k1, k2, k3, k4, List.chain'_cons, hpa, hpb, hpc, h2, h3]
      · exact absurd h2 hbc
      · obtain ⟨f1, f2, f3, f4⟩ := watchCmp_price_facts hpc hpb h2
        obtain ⟨g1, g2, g3, g4⟩ := watchCmp_price_facts hpb hpa h1
        obtain ⟨k1, k2, k3, k4⟩ := watchCmp_price_facts hpc hpa (h2.trans h1)
        constructor <;>
          simp [watchSort, sortBy, insertBy, f1, f2, f3, f4, g1, g2, g3, g4,
            k1, k2, k3, k4, List.chain'_cons, hpa, hpb, hpc, h1, h2]
  exact ⟨hmain.1, hmain.2, part3⟩

/-- Witness for C8: three concrete rows with distinct prices, fed to the
sort out of order. -/
theorem spec_C8_witness :
    List.Chain' (fun x y : CryptoData => (usd x).price < (usd y).price)
      (watchSort SortColumn.Price true
        [mkCrypto "Ethereum" "ETH" 2, mkCrypto "Bitcoin" "BTC" 3,
          mkCrypto "Cardano" "ADA" 1]) ∧
    watchSort SortColumn.Price false
        [mkCrypto "Ethereum" "ETH" 2, mkCrypto "Bitcoin" "BTC" 3,
          mkCrypto "Cardano" "ADA" 1] =
      (watchSort SortColumn.Price true
        [mkCrypto "Ethereum" "ETH" 2, mkCrypto "Bitcoin" "BTC" 3,
          mkCrypto "Cardano" "ADA" 1]).reverse ∧
    (∀ (x y : CryptoData) (dir : Bool),
      (usd x).percent_change_24h = none → (usd y).percent_change_24h = none →
      watchCmp SortColumn.Change24h dir x y = Ordering.eq) :=
  spec_C8_sort_order (mkCrypto "Ethereum" "ETH" 2) (mkCrypto "Bitcoin" "BTC" 3)
    (mkCrypto "Cardano" "ADA" 1) 2 3 1 rfl rfl rfl
    (by decide) (by decide) (by decide)
